import Mathlib

/-!
Shallow embedding of the German CEFR text-leveling engine of `app.py`
(`GermanLanguageAnalyzer`, `AIService`, `TranslationService`,
`create_leveled_text`, `translate_word`, `translate_batch`) together
with proofs of the specification claims about it.

Python strings are modelled as `String`; the methods `str.lower`,
`str.upper`, `str.strip`, `str.split` and the substring test `in` are
modelled by the list-level functions `pyLower`, `pyUpper`, `pyStrip`,
`pySplit`, `pyInStr` below.  A Python `dict` is modelled as an
association list with insert-or-update `dinsert` (every key occurs at
most once, first match wins on lookup), a Python `set` of strings as a
list with duplicate-free insertion `setAdd`.  External collaborators
(the Claude and Gemini clients) are modelled as response oracles inside
`AIService`: `none` models a raised exception, `some s` a response `s`.

The file lists all definitions first, then all theorems.
-/

namespace GermanTextLevel

/-! ## String and container primitives -/

/-- Python `str.lower()` as character-wise `Char.toLower` (ASCII case map). -/
def pyLower (s : String) : String := String.mk (s.toList.map Char.toLower)

/-- Python `str.upper()` as character-wise `Char.toUpper` (ASCII case map). -/
def pyUpper (s : String) : String := String.mk (s.toList.map Char.toUpper)

/-- Whitespace stripping on a character list, both ends: Python `str.strip()`. -/
def stripList (l : List Char) : List Char :=
  ((l.dropWhile Char.isWhitespace).reverse.dropWhile Char.isWhitespace).reverse

/-- Python `str.strip()`. -/
def pyStrip (s : String) : String := String.mk (stripList s.toList)

/-- Is `p` a prefix of the second list? -/
def prefB : List Char → List Char → Bool
  | [], _ => true
  | _ :: _, [] => false
  | a :: as, b :: bs => a == b && prefB as bs

/-- Is `p` a contiguous sublist of the second list? -/
def substrB (p : List Char) : List Char → Bool
  | [] => p.isEmpty
  | c :: rest => prefB p (c :: rest) || substrB p rest

/-- Python substring test `t in s`. -/
def pyInStr (t s : String) : Bool := substrB t.toList s.toList

/-- Python `s.split(c)` for a single-character separator, on lists. -/
def splitListOn (c : Char) : List Char → List (List Char)
  | [] => [[]]
  | x :: xs =>
    match splitListOn c xs with
    | [] => if x == c then [[], []] else [[x]]
    | h :: t => if x == c then [] :: h :: t else (x :: h) :: t

/-- Python `s.split(c)` for a single-character separator. -/
def pySplit (c : Char) (s : String) : List String :=
  (splitListOn c s.toList).map String.mk

/-- Python dict assignment `m[k] = v`: update in place if present, else append. -/
def dinsert {α : Type} (m : List (String × α)) (k : String) (v : α) :
    List (String × α) :=
  match m with
  | [] => [(k, v)]
  | (k', v') :: rest => if k' = k then (k, v) :: rest else (k', v') :: dinsert rest k v

/-- Python `set.add` for a set of strings kept in insertion order. -/
def setAdd (s : List String) (x : String) : List String :=
  if s.contains x then s else s ++ [x]

/-! ## Level ordering (`GermanLanguageAnalyzer.is_above_level`) -/

/-- The dict `level_order = {'A1': 1, 'A2': 2, 'B1': 3, 'B2': 4, 'C1': 5}`
of `is_above_level`, as a lookup function (`none` models a missing key). -/
def level_order (s : String) : Option Nat :=
  if s = "A1" then some 1
  else if s = "A2" then some 2
  else if s = "B1" then some 3
  else if s = "B2" then some 4
  else if s = "C1" then some 5
  else none

/-- `GermanLanguageAnalyzer.is_above_level`: true iff both levels are keys of
`level_order` and the word level's rank is strictly greater. -/
def is_above_level (word_level target_level : String) : Bool :=
  match level_order word_level, level_order target_level with
  | some a, some b => decide (a > b)
  | _, _ => false

/-- Reference definition following claim C4's words: the ranks A1=1, A2=2,
B1=3, B2=4, C1=5 (0 for anything else, unused by the claim). -/
def specRank (s : String) : Nat :=
  if s = "A1" then 1
  else if s = "A2" then 2
  else if s = "B1" then 3
  else if s = "B2" then 4
  else if s = "C1" then 5
  else 0

/-- The five recognized tier labels. -/
def validLevels : List String := ["A1", "A2", "B1", "B2", "C1"]

/-! ## Vocabulary index (`GermanLanguageAnalyzer.load_word_lists` /
`get_word_level`)

`load_word_lists` iterates the five tier files in the fixed dict order
A1, A2, B1, B2, C1 and for each lemma cell executes
`lemma_lower = lemma.lower().strip()` followed by
`if lemma_lower and lemma_lower not in self.word_levels:
self.word_levels[lemma_lower] = level`.  Sources are modelled as
`(level, lemma column)` pairs; the `pd.notna`/`isinstance(str)` guard is
modelled by the sources containing only strings. -/

/-- `lemma.lower().strip()` of `load_word_lists`. -/
def normalizeLemma (s : String) : String := pyStrip (pyLower s)

/-- The body of the inner loop of `load_word_lists` for one lemma cell. -/
def addLemma (m : List (String × String)) (level lem : String) :
    List (String × String) :=
  if normalizeLemma lem ≠ "" ∧ (List.lookup (normalizeLemma lem) m).isNone = true
  then m ++ [(normalizeLemma lem, level)] else m

/-- The inner loop of `load_word_lists` over one tier file's lemma column. -/
def loadLevel (m : List (String × String)) (level : String)
    (lemmas : List String) : List (String × String) :=
  lemmas.foldl (fun acc lem => addLemma acc level lem) m

/-- `GermanLanguageAnalyzer.load_word_lists`: fold the tier sources, in
order, into the `word_levels` dict (starting from the empty dict of
`__init__`). -/
def load_word_lists (sources : List (String × List String)) :
    List (String × String) :=
  sources.foldl (fun acc p => loadLevel acc p.1 p.2) []

/-- `GermanLanguageAnalyzer.get_word_level`: lowercase the argument (no
trimming) and look it up in `word_levels`. -/
def get_word_level (m : List (String × String)) (lem : String) :
    Option String :=
  List.lookup (pyLower lem) m

/-- Reference definition following claim C2's words: the tier of the first
source list in which the normalized lemma appears. -/
def firstTierOf : List (String × List String) → String → Option String
  | [], _ => none
  | (lvl, ls) :: rest, n =>
    if ls.any (fun lem => normalizeLemma lem == n) then some lvl
    else firstTierOf rest n

/-- Five tier sources in the canonical order; the lemma `" "` normalizes to
the empty string and appears in the A1 and A2 lists. -/
def dupSources : List (String × List String) :=
  [("A1", [" "]), ("A2", [" "]), ("B1", []), ("B2", []), ("C1", [])]

/-- Does the list start with a whitespace character? -/
def headWS : List Char → Bool
  | [] => false
  | c :: _ => c.isWhitespace

/-- Does the list start or end with a whitespace character? -/
def edgeWS (l : List Char) : Bool := headWS l || headWS l.reverse

/-! ## Token classifier (`GermanLanguageAnalyzer.analyze_text`)

Tokens are the output of the external spaCy pipeline (an out-of-scope
collaborator): surface text, lemma, coarse POS tag, entity tag (`""` when
none, as `ent_type_`), punctuation/space flags and the running index
`token.i`. -/

structure Token where
  text : String
  lem : String
  pos : String
  ent_type : String
  is_punct : Bool
  is_space : Bool
  i : Nat
deriving DecidableEq

/-- The state the analyzer methods read: `word_levels`, `stopwords`,
`core_words` (the spaCy pipeline itself stays external). -/
structure Analyzer where
  word_levels : List (String × String)
  stopwords : List String
  core_words : List String
deriving DecidableEq

/-- One entry of a `words_above_level` bucket. -/
structure WordInfo where
  original : String
  lem : String
  pos : String
  index : Nat
deriving DecidableEq

/-- `lemma = token.lemma_ if token.lemma_ != "-PRON-" else token.text`. -/
def effLemma (tk : Token) : String :=
  if tk.lem = "-PRON-" then tk.text else tk.lem

/-- Append a `WordInfo` to the bucket of `k`, creating the bucket at the
end on first use (`defaultdict(list)` + key insertion order). -/
def bucketAdd (m : List (String × List WordInfo)) (k : String) (w : WordInfo) :
    List (String × List WordInfo) :=
  match m with
  | [] => [(k, [w])]
  | (k', ws) :: rest =>
    if k' = k then (k', ws ++ [w]) :: rest else (k', ws) :: bucketAdd rest k w

/-- The mutable locals of the `analyze_text` loop. -/
structure AnalysisAcc where
  buckets : List (String × List WordInfo)
  all_words : List (String × String)
  skipped_entities : List String
  processed : List (String × String × String × String)
  levels_found : List (String × String)
  skipped_words : List String
deriving DecidableEq

def emptyAcc : AnalysisAcc := ⟨[], [], [], [], [], []⟩

/-- One iteration of the `for token in doc` loop of `analyze_text`:
skip punctuation/whitespace; record the token in the processed-token
debug list; then entity skip, stopword skip, core-word skip, considered
word, vocabulary lookup and above-level bucketing, in that order. -/
def analyzeStep (a : Analyzer) (target : String) (acc : AnalysisAcc)
    (tk : Token) : AnalysisAcc :=
  if tk.is_punct || tk.is_space then acc
  else
    let acc1 := { acc with
      processed := acc.processed ++
        [(tk.text, effLemma tk, pyLower (effLemma tk), tk.pos)] }
    if tk.ent_type ≠ "" then
      { acc1 with
        skipped_entities := setAdd acc1.skipped_entities tk.text,
        skipped_words := acc1.skipped_words ++ [tk.text ++ " (entity)"] }
    else if pyLower (effLemma tk) ∈ a.stopwords then
      { acc1 with
        skipped_words := acc1.skipped_words ++ [tk.text ++ " (stopword)"] }
    else if pyLower (effLemma tk) ∈ a.core_words then
      { acc1 with
        skipped_words := acc1.skipped_words ++ [tk.text ++ " (core word)"] }
    else
      let acc2 := { acc1 with
        all_words := acc1.all_words ++ [(tk.text, effLemma tk)] }
      match get_word_level a.word_levels (effLemma tk) with
      | none => acc2
      | some wl =>
        let acc3 :=
          if wl ≠ "" then
            { acc2 with levels_found := dinsert acc2.levels_found (effLemma tk) wl }
          else acc2
        if wl ≠ "" ∧ is_above_level wl target = true then
          { acc3 with
            buckets := bucketAdd acc3.buckets wl
              ⟨tk.text, effLemma tk, tk.pos, tk.i⟩ }
        else acc3

/-- The dict `analyze_text` returns (`doc` is the token stream itself,
`total_words = len(all_words)`; the three debug lists sit in
`debug_info`). -/
structure AnalysisResult where
  words_above_level : List (String × List WordInfo)
  all_words : List (String × String)
  skipped_entities : List String
  total_words : Nat
  doc : List Token
  debug_processed : List (String × String × String × String)
  debug_levels_found : List (String × String)
  debug_skipped_words : List String
deriving DecidableEq

/-- `GermanLanguageAnalyzer.analyze_text` on the token stream the external
pipeline produced for the input text. -/
def analyze_text (a : Analyzer) (tokens : List Token) (target : String) :
    AnalysisResult :=
  let acc := tokens.foldl (analyzeStep a target) emptyAcc
  { words_above_level := acc.buckets
    all_words := acc.all_words
    skipped_entities := acc.skipped_entities
    total_words := acc.all_words.length
    doc := tokens
    debug_processed := acc.processed
    debug_levels_found := acc.levels_found
    debug_skipped_words := acc.skipped_words }

/-- `analyze_text` with the analyzer state threaded through explicitly:
the method only reads `self.word_levels`, `self.stopwords`,
`self.core_words` and assigns to no attribute, so the post-state is the
input analyzer unchanged. -/
def analyze_text_st (a : Analyzer) (tokens : List Token) (target : String) :
    AnalysisResult × Analyzer :=
  (analyze_text a tokens target, a)

/-! ## Leveled-text rendering (`create_leveled_text`) -/

/-- The external AI collaborators held by `AIService`.  `claude_client` /
`gemini_client` model whether a client object is configured (`None`
tests in the code); the remaining fields are response oracles for the
external calls, where `none` models a raised exception and `some s` a
response with text `s`. -/
structure AIService where
  claude_client : Bool
  gemini_client : Bool
  claude_simplify : Option String
  gemini_simplify : Option String
  claude_tr : String → String → Option String
  gemini_tr : String → String → Option String
  claude_batch_tr : List String → String → Option String
  gemini_batch_tr : List String → String → Option String

/-- `AIService.simplify_text_claude`: without a client return the text
unchanged; on an exception from the external call (`none`) the `except`
branch also returns the text unchanged. -/
def simplify_text_claude (svc : AIService) (text : String) : String :=
  if svc.claude_client then
    match svc.claude_simplify with
    | some s => s
    | none => text
  else text

/-- `AIService.simplify_text_gemini`, same shape as the Claude variant. -/
def simplify_text_gemini (svc : AIService) (text : String) : String :=
  if svc.gemini_client then
    match svc.gemini_simplify with
    | some s => s
    | none => text
  else text

/-- Does the fallback loop of `create_leveled_text` replace this token?
`word_level = analyzer.get_word_level(lemma)` followed by
`if word_level and analyzer.is_above_level(word_level, target_level)`
(`word_level` is truthy iff it is neither `None` nor `""`). -/
def replacedByPlaceholder (a : Analyzer) (target : String) (tk : Token) :
    Bool :=
  match get_word_level a.word_levels (effLemma tk) with
  | some wl => (wl != "") && is_above_level wl target
  | none => false

/-- The `tokens` list built by the fallback loop of `create_leveled_text`. -/
def placeholderTokens (a : Analyzer) (tokens : List Token) (target : String) :
    List String :=
  tokens.map (fun tk =>
    if replacedByPlaceholder a target tk then "[...]" else tk.text)

/-- The spacing loop of `create_leveled_text`: starting from the second
token, prepend a single space unless the token is a substring of
`".,;:!?"` (Python `token in ".,;:!?"`) or the previous token was the
placeholder. -/
def joinAux (prev acc : String) : List String → String
  | [] => acc
  | t :: rest =>
    joinAux t
      (if (!(pyInStr t (".,;:!?"))) && (prev != "[...]") then acc ++ " " ++ t
       else acc ++ t) rest

def joinTokens : List String → String
  | [] => ""
  | t :: rest => joinAux t t rest

/-- The deterministic fallback rendering of `create_leveled_text`
(everything after the AI branch): `if not doc: return text`, else replace
above-level tokens by `"[...]"` and reconstruct with the spacing rule. -/
def placeholder_rendering (a : Analyzer) (text : String) (tokens : List Token)
    (target : String) : String :=
  if tokens.isEmpty then text
  else joinTokens (placeholderTokens a tokens target)

/-- `words_to_replace`: the lemmas of all above-level buckets, in bucket
insertion order. -/
def wordsToReplace (res : AnalysisResult) : List String :=
  res.words_above_level.foldl (fun l p => l ++ p.2.map (fun w => w.lem)) []

/-- `create_leveled_text(analyzer, text, target_level, ai_service, ai_model)`.
`tokens` is the doc the external pipeline produced for `text` inside
`analyze_text`.  The AI branch runs only under
`if ai_service and ai_model and words_to_replace:` (a `None` service, a
`None`/empty model name, or no above-level words all skip it), and falls
through to the deterministic placeholder rendering when the named model's
client is not configured. -/
def create_leveled_text (a : Analyzer) (text : String) (tokens : List Token)
    (target : String) (ai : Option AIService) (ai_model : Option String) :
    String :=
  let analysis := analyze_text a tokens target
  match ai, ai_model with
  | some svc, some m =>
    if m ≠ "" ∧ wordsToReplace analysis ≠ [] then
      if m = "Claude" ∧ svc.claude_client = true then
        simplify_text_claude svc text
      else if m = "Gemini" ∧ svc.gemini_client = true then
        simplify_text_gemini svc text
      else placeholder_rendering a text analysis.doc target
    else placeholder_rendering a text analysis.doc target
  | _, _ => placeholder_rendering a text analysis.doc target

/-! ## Concrete instances used by witnesses and counterexamples -/

/-- Entity-tagged token whose lemma `der` is a stopword. -/
def entStopToken : Token := ⟨"Bonn", "der", "NOUN", "LOC", false, false, 0⟩

/-- Punctuation token that also carries an entity tag and a stopword lemma. -/
def punctEntToken : Token := ⟨".", "der", "PUNCT", "LOC", true, false, 0⟩

/-- Analyzer whose stopword set holds `der`. -/
def stopAnalyzer : Analyzer := ⟨[], ["der"], []⟩

/-- Is the lowercased lemma in the stopword set or the core-word set? -/
def lemmaExcluded (a : Analyzer) (l : String) : Prop :=
  pyLower l ∈ a.stopwords ∨ pyLower l ∈ a.core_words

instance (a : Analyzer) (l : String) : Decidable (lemmaExcluded a l) :=
  inferInstanceAs (Decidable (_ ∨ _))

/-- The C6 invariant over the loop state: every considered word and every
bucket entry carries a lemma outside both exclusion sets. -/
def exclInv (a : Analyzer) (acc : AnalysisAcc) : Prop :=
  (∀ p ∈ acc.all_words, ¬ lemmaExcluded a p.2) ∧
  (∀ q ∈ acc.buckets, ∀ w ∈ q.2, ¬ lemmaExcluded a w.lem)

/-- The core word `und`, not in any vocabulary list. -/
def undToken : Token := ⟨"und", "und", "CCONJ", "", false, false, 0⟩

/-- Analyzer with stopword `und` and an empty vocabulary. -/
def undAnalyzer : Analyzer := ⟨[], ["und"], []⟩

/-- Stopword token whose lemma the vocabulary maps to C1. -/
def dochToken : Token := ⟨"Doch", "doch", "ADV", "", false, false, 0⟩

/-- Analyzer where `doch` is both a stopword and a C1 vocabulary entry. -/
def dochAnalyzer : Analyzer := ⟨[("doch", "C1")], ["doch"], []⟩

/-- A plain token (no entity tag, no punctuation flags). -/
def mkTok (t l : String) (n : Nat) : Token := ⟨t, l, "X", "", false, false, n⟩

def helloTokens : List Token :=
  [mkTok "Hallo" "Hallo" 0, mkTok "," "," 1, mkTok "Welt" "Welt" 2,
   mkTok "." "." 3]

def emptyAnalyzer : Analyzer := ⟨[], [], []⟩

def wetterAnalyzer : Analyzer := ⟨[("außergewöhnlich", "C1")], [], []⟩

def wetterTokens : List Token :=
  [mkTok "Das" "der" 0, mkTok "außergewöhnliche" "außergewöhnlich" 1,
   mkTok "Wetter" "Wetter" 2, mkTok "." "." 3]

/-- AI service with no configured client at all. -/
def offSvc : AIService :=
  ⟨false, false, none, none, fun _ _ => none, fun _ _ => none,
   fun _ _ => none, fun _ _ => none⟩

/-- AI service whose Claude client is configured but whose external call
raises. -/
def failSvc : AIService :=
  ⟨true, false, none, none, fun _ _ => none, fun _ _ => none,
   fun _ _ => none, fun _ _ => none⟩

/-! ## Translation service (`TranslationService`)

`translate_word` / `translate_batch` mutate `self.translation_cache`, so
they are modelled state-passing; each result also records which words an
external single/batched translator call was issued for, which is what
claims C7 and C8 talk about. -/

/-- The mock translation `f"{word} ({target_lang[:2].upper()})"`. -/
def mockTranslation (word lang : String) : String :=
  word ++ " (" ++ pyUpper (String.mk (lang.toList.take 2)) ++ ")"

/-- The cache key `f"{word}_{target_lang}_{self.ai_model}"`. -/
def tkey (word lang model : String) : String :=
  word ++ "_" ++ lang ++ "_" ++ model

/-- The state of a `TranslationService` instance. -/
structure TransSvc where
  ai_service : Option AIService
  ai_model : String
  translation_cache : List (String × String)

/-- `TranslationService._translate_with_claude`: one external call; an
exception (`none`) is caught and yields the `(error)` string, a blank
response falls back to the mock translation. -/
def translate_with_claude (o : AIService) (word lang : String) : String :=
  match o.claude_tr word lang with
  | none => word ++ " (error)"
  | some t => if pyStrip t ≠ "" then pyStrip t else mockTranslation word lang

/-- `TranslationService._translate_with_gemini`, same shape. -/
def translate_with_gemini (o : AIService) (word lang : String) : String :=
  match o.gemini_tr word lang with
  | none => word ++ " (error)"
  | some t => if pyStrip t ≠ "" then pyStrip t else mockTranslation word lang

/-- Result of `translate_word`: the returned string, the post-state, and
the words for which an external single-word call was issued (at most one). -/
structure TWResult where
  result : String
  svc : TransSvc
  extCalls : List String

/-- `TranslationService.translate_word`: cache hit returns the stored
value; with no AI service or model `"None"` the mock translation is
returned WITHOUT being cached; otherwise the obtained translation (from
the matching configured client, or the mock when none matches) is stored
under the key before being returned. -/
def translate_word (s : TransSvc) (word lang : String) : TWResult :=
  match List.lookup (tkey word lang s.ai_model) s.translation_cache with
  | some v => ⟨v, s, []⟩
  | none =>
    match s.ai_service with
    | none => ⟨mockTranslation word lang, s, []⟩
    | some o =>
      if s.ai_model = "None" then ⟨mockTranslation word lang, s, []⟩
      else if s.ai_model = "Claude" ∧ o.claude_client = true then
        ⟨translate_with_claude o word lang,
         { s with translation_cache := (dinsert s.translation_cache
             (tkey word lang s.ai_model) (translate_with_claude o word lang)) },
         [word]⟩
      else if s.ai_model = "Gemini" ∧ o.gemini_client = true then
        ⟨translate_with_gemini o word lang,
         { s with translation_cache := (dinsert s.translation_cache
             (tkey word lang s.ai_model) (translate_with_gemini o word lang)) },
         [word]⟩
      else
        ⟨mockTranslation word lang,
         { s with translation_cache := (dinsert s.translation_cache
             (tkey word lang s.ai_model) (mockTranslation word lang)) },
         []⟩

/-- The statement shared by claim C7's conjuncts. -/
def cacheContract (s : TransSvc) (word lang : String) : Prop :=
  ((translate_word s word lang).extCalls.length +
    (translate_word (translate_word s word lang).svc word lang).extCalls.length
      ≤ 1) ∧
  (∀ v, List.lookup (tkey word lang s.ai_model) s.translation_cache = some v →
    (translate_word s word lang).result = v ∧
    (translate_word s word lang).extCalls = [] ∧
    (translate_word s word lang).svc = s) ∧
  (List.lookup (tkey word lang s.ai_model) s.translation_cache = none →
    ∀ o, s.ai_service = some o → s.ai_model ≠ "None" →
    List.lookup (tkey word lang s.ai_model)
      (translate_word s word lang).svc.translation_cache
      = some (translate_word s word lang).result) ∧
  (List.lookup (tkey word lang s.ai_model) s.translation_cache = none →
    (s.ai_service = none ∨ s.ai_model = "None") →
    (translate_word s word lang).svc = s ∧
    (translate_word s word lang).result = mockTranslation word lang)

/-! ## Batch translation (`TranslationService.translate_batch`) -/

/-- `uncached_words`: the input words whose cache key is absent. -/
def uncachedOf (s : TransSvc) (words : List String) (lang : String) :
    List String :=
  words.filter
    (fun w => (List.lookup (tkey w lang s.ai_model) s.translation_cache).isNone)

/-- The response-parsing loop of `_batch_translate_with_ai`: pair words
with response lines positionally, strip each line, skip blanks, record
each obtained translation in the returned dict and in the cache. -/
def parseBatch (lang model : String) :
    List String → List String → List (String × String) →
    List (String × String) →
    List (String × String) × List (String × String)
  | [], _, tr, c => (tr, c)
  | _ :: _, [], tr, c => (tr, c)
  | w :: ws, line :: ls, tr, c =>
    if pyStrip line ≠ "" then
      parseBatch lang model ws ls (dinsert tr w (pyStrip line))
        (dinsert c (tkey w lang model) (pyStrip line))
    else parseBatch lang model ws ls tr c

/-- Result of `_batch_translate_with_ai`: the parsed translations, the
post-state, and the word lists an external batched call was issued for. -/
structure BatchOut where
  translations : List (String × String)
  svc : TransSvc
  calls : List (List String)

/-- `TranslationService._batch_translate_with_ai`: one batched external
call when the named model's client is configured (an exception yields the
empty dict and leaves the cache alone); with no matching client, `{}` is
returned without any call. -/
def batch_translate_with_ai (s : TransSvc) (words : List String)
    (lang : String) : BatchOut :=
  match s.ai_service with
  | none => ⟨[], s, []⟩
  | some o =>
    if s.ai_model = "Claude" ∧ o.claude_client = true then
      match o.claude_batch_tr words lang with
      | none => ⟨[], s, [words]⟩
      | some resp =>
        ⟨(parseBatch lang s.ai_model words (pySplit '\n' (pyStrip resp))
            [] s.translation_cache).1,
         { s with translation_cache := (parseBatch lang s.ai_model words
             (pySplit '\n' (pyStrip resp)) [] s.translation_cache).2 },
         [words]⟩
    else if s.ai_model = "Gemini" ∧ o.gemini_client = true then
      match o.gemini_batch_tr words lang with
      | none => ⟨[], s, [words]⟩
      | some resp =>
        ⟨(parseBatch lang s.ai_model words (pySplit '\n' (pyStrip resp))
            [] s.translation_cache).1,
         { s with translation_cache := (parseBatch lang s.ai_model words
             (pySplit '\n' (pyStrip resp)) [] s.translation_cache).2 },
         [words]⟩
    else ⟨[], s, []⟩

/-- The batch branch of `translate_batch`: run only under
`if self.ai_service and self.ai_model != "None" and len(words) > 5:` and
`if uncached_words:`. -/
def batchPhase (s : TransSvc) (words : List String) (lang : String) :
    List (String × String) × TransSvc × List (List String) :=
  if s.ai_service.isSome = true ∧ s.ai_model ≠ "None" ∧ words.length > 5 then
    if uncachedOf s words lang ≠ [] then
      ((batch_translate_with_ai s (uncachedOf s words lang) lang).translations,
       (batch_translate_with_ai s (uncachedOf s words lang) lang).svc,
       (batch_translate_with_ai s (uncachedOf s words lang) lang).calls)
    else ([], s, [])
  else ([], s, [])

/-- One iteration of the final loop of `translate_batch`: words already in
`translations` are skipped, the rest go through `translate_word`. -/
def tbStep (lang : String)
    (acc : List (String × String) × TransSvc × List String) (w : String) :
    List (String × String) × TransSvc × List String :=
  if (List.lookup w acc.1).isSome = true then acc
  else
    (dinsert acc.1 w (translate_word acc.2.1 w lang).result,
     (translate_word acc.2.1 w lang).svc,
     acc.2.2 ++ (translate_word acc.2.1 w lang).extCalls)

/-- Result of `translate_batch`: the translations dict, the post-state,
the word lists sent to the batched external call, and the words for which
an external single-word call was issued. -/
structure TBOut where
  translations : List (String × String)
  svc : TransSvc
  batchCalls : List (List String)
  singleCalls : List String

/-- `TranslationService.translate_batch`. -/
def translate_batch (s : TransSvc) (words : List String) (lang : String) :
    TBOut :=
  ⟨(words.foldl (tbStep lang)
      ((batchPhase s words lang).1, (batchPhase s words lang).2.1, [])).1,
   (words.foldl (tbStep lang)
      ((batchPhase s words lang).1, (batchPhase s words lang).2.1, [])).2.1,
   (batchPhase s words lang).2.2,
   (words.foldl (tbStep lang)
      ((batchPhase s words lang).1, (batchPhase s words lang).2.1, [])).2.2⟩

/-- Translation service with a cached word under model `"None"`. -/
def cachedSvc : TransSvc := ⟨none, "None", [(tkey "w1" "L" "None", "t1")]⟩

/-- External service whose Claude batch call answers `"x"`. -/
def batchCexAI : AIService :=
  ⟨true, false, none, none, fun _ _ => none, fun _ _ => none,
   fun _ _ => some "x", fun _ _ => none⟩

/-- Claude-backed service with `w1`–`w5` already cached for language `L`. -/
def batchCexSvc : TransSvc :=
  ⟨some batchCexAI, "Claude",
   [(tkey "w1" "L" "Claude", "t1"), (tkey "w2" "L" "Claude", "t2"),
    (tkey "w3" "L" "Claude", "t3"), (tkey "w4" "L" "Claude", "t4"),
    (tkey "w5" "L" "Claude", "t5")]⟩

/-! ## Theorems: supporting lemmas, the claims, their witnesses and
counterexamples -/

theorem level_order_eq_none {s : String} (h : s ∉ validLevels) :
    level_order s = none := by
  simp only [validLevels, List.mem_cons, List.not_mem_nil, or_false, not_or] at h
  obtain ⟨h1, h2, h3, h4, h5⟩ := h
  simp [level_order, h1, h2, h3, h4, h5]

/-- C4: for two recognized tier labels, `is_above_level` decides strict rank
comparison under the ranks A1=1 … C1=5; if either label is unrecognized it
returns `false` (and, being a total function, never raises an error). -/
theorem is_above_level_spec (w t : String) :
    (w ∈ validLevels → t ∈ validLevels →
      (is_above_level w t = true ↔ specRank w > specRank t)) ∧
    ((w ∉ validLevels ∨ t ∉ validLevels) → is_above_level w t = false) := by
  constructor
  · intro hw ht
    simp only [validLevels, List.mem_cons, List.not_mem_nil, or_false] at hw ht
    rcases hw with rfl | rfl | rfl | rfl | rfl <;>
      rcases ht with rfl | rfl | rfl | rfl | rfl <;> decide
  · intro hk
    rcases hk with hw | ht
    · simp [is_above_level, level_order_eq_none hw]
    · rcases hlw : level_order w with _ | a <;>
        simp [is_above_level, hlw, level_order_eq_none ht]

/-- Witness for C4: `B2` is above `B1`, as the ranks 4 > 3 demand. -/
theorem is_above_level_spec_witness : is_above_level "B2" "B1" = true :=
  ((is_above_level_spec "B2" "B1").1 (by decide) (by decide)).mpr (by decide)

theorem lookup_append_eq {α : Type} (k : String) (m₁ m₂ : List (String × α)) :
    List.lookup k (m₁ ++ m₂) =
      (match List.lookup k m₁ with
       | some v => some v
       | none => List.lookup k m₂) := by
  induction m₁ with
  | nil => rfl
  | cons p rest ih =>
    obtain ⟨a, b⟩ := p
    cases hb : (k == a) with
    | false => simpa [List.lookup, hb] using ih
    | true => simp [List.lookup, hb]

theorem addLemma_lookup_some {m : List (String × String)} {lvl lem n : String}
    {v : String} (h : List.lookup n m = some v) :
    List.lookup n (addLemma m lvl lem) = some v := by
  unfold addLemma
  split
  · rw [lookup_append_eq, h]
  · exact h

theorem loadLevel_cons (m : List (String × String)) (lvl x : String)
    (xs : List String) :
    loadLevel m lvl (x :: xs) = loadLevel (addLemma m lvl x) lvl xs := rfl

theorem loadLevel_lookup_some :
    ∀ (ls : List String) (m : List (String × String)) {lvl n v : String},
    List.lookup n m = some v → List.lookup n (loadLevel m lvl ls) = some v := by
  intro ls
  induction ls with
  | nil => intro m lvl n v h; exact h
  | cons x xs ih =>
    intro m lvl n v h
    rw [loadLevel_cons]
    exact ih _ (addLemma_lookup_some h)

theorem addLemma_lookup_none {m : List (String × String)} {lvl lem n : String}
    (hne : normalizeLemma lem ≠ n) (h : List.lookup n m = none) :
    List.lookup n (addLemma m lvl lem) = none := by
  have hb : (n == normalizeLemma lem) = false :=
    beq_eq_false_iff_ne.mpr (Ne.symm hne)
  unfold addLemma
  split
  · rw [lookup_append_eq, h]
    simp [List.lookup, hb]
  · exact h

theorem addLemma_lookup_hit {m : List (String × String)} {lvl lem : String}
    (hne : normalizeLemma lem ≠ "")
    (h : List.lookup (normalizeLemma lem) m = none) :
    List.lookup (normalizeLemma lem) (addLemma m lvl lem) = some lvl := by
  unfold addLemma
  rw [if_pos ⟨hne, by rw [h]; rfl⟩, lookup_append_eq, h]
  simp [List.lookup]

theorem loadLevel_none :
    ∀ (ls : List String) (m : List (String × String)) {lvl n : String},
    (ls.any (fun lem => normalizeLemma lem == n)) = false →
    List.lookup n m = none →
    List.lookup n (loadLevel m lvl ls) = none := by
  intro ls
  induction ls with
  | nil => intro m lvl n _ h; exact h
  | cons x xs ih =>
    intro m lvl n hany h
    simp only [List.any_cons, Bool.or_eq_false_iff] at hany
    obtain ⟨hx, hxs⟩ := hany
    rw [loadLevel_cons]
    exact ih _ hxs (addLemma_lookup_none (beq_eq_false_iff_ne.mp hx) h)

theorem loadLevel_hit :
    ∀ (ls : List String) (m : List (String × String)) {lvl n : String},
    n ≠ "" →
    (ls.any (fun lem => normalizeLemma lem == n)) = true →
    List.lookup n m = none →
    List.lookup n (loadLevel m lvl ls) = some lvl := by
  intro ls
  induction ls with
  | nil => intro m lvl n _ hany _; simp at hany
  | cons x xs ih =>
    intro m lvl n hn hany h
    rw [loadLevel_cons]
    by_cases hx : normalizeLemma x = n
    · subst hx
      exact loadLevel_lookup_some xs _ (addLemma_lookup_hit hn h)
    · have hany' : (xs.any (fun lem => normalizeLemma lem == n)) = true := by
        simp only [List.any_cons, Bool.or_eq_true] at hany
        rcases hany with hx' | hxs
        · exact absurd (eq_of_beq hx') hx
        · exact hxs
      exact ih _ hn hany' (addLemma_lookup_none hx h)

theorem load_fold_some :
    ∀ (sources : List (String × List String)) (m : List (String × String))
    {n v : String}, List.lookup n m = some v →
    List.lookup n (sources.foldl (fun acc p => loadLevel acc p.1 p.2) m)
      = some v := by
  intro sources
  induction sources with
  | nil => intro m n v h; exact h
  | cons p rest ih =>
    intro m n v h
    simp only [List.foldl_cons]
    exact ih _ (loadLevel_lookup_some _ _ h)

theorem load_fold_eq :
    ∀ (sources : List (String × List String)) (m : List (String × String))
    {n : String}, n ≠ "" → List.lookup n m = none →
    List.lookup n (sources.foldl (fun acc p => loadLevel acc p.1 p.2) m)
      = firstTierOf sources n := by
  intro sources
  induction sources with
  | nil => intro m n _ h; exact h
  | cons p rest ih =>
    intro m n hn h
    obtain ⟨lvl, ls⟩ := p
    simp only [List.foldl_cons]
    cases hany : (ls.any (fun lem => normalizeLemma lem == n)) with
    | true =>
      rw [show firstTierOf ((lvl, ls) :: rest) n = some lvl from by
        simp [firstTierOf, hany]]
      exact load_fold_some rest _ (loadLevel_hit ls m hn hany h)
    | false =>
      rw [show firstTierOf ((lvl, ls) :: rest) n = firstTierOf rest n from by
        simp [firstTierOf, hany]]
      exact ih _ hn (loadLevel_none ls m hany h)

/-- C2 (amended): for every lemma whose normalized (lowercased, trimmed)
form `n` is nonempty, the built index resolves `n` to the tier of the
first source list in which `n` appears (so a lemma occurring in several
lists gets the tier of the first, A1 before A2 before … before C1 in the
canonical order), and re-inserting a lemma whose normalized form is
already present leaves the dict unchanged. -/
theorem first_tier_wins (sources : List (String × List String)) (n : String)
    (h1 : n ≠ "") (h2 : pyLower n = n) :
    get_word_level (load_word_lists sources) n = firstTierOf sources n ∧
    ∀ (m : List (String × String)) (lvl lem : String),
      (List.lookup (normalizeLemma lem) m).isSome = true →
      addLemma m lvl lem = m := by
  constructor
  · unfold get_word_level load_word_lists
    rw [h2]
    exact load_fold_eq sources [] h1 rfl
  · intro m lvl lem h
    unfold addLemma
    rw [if_neg]
    intro hcond
    obtain ⟨-, hnone⟩ := hcond
    rcases hl : List.lookup (normalizeLemma lem) m with _ | v
    · rw [hl] at h; simp at h
    · rw [hl] at hnone; simp at hnone

/-- Witness for C2: `haus` appears (normalized) in the A1 and the B1 source;
lookup returns A1. -/
theorem first_tier_wins_witness :
    get_word_level (load_word_lists [("A1", ["Haus"]), ("B1", ["haus"])])
      "haus" = some "A1" := by
  rw [(first_tier_wins [("A1", ["Haus"]), ("B1", ["haus"])] "haus"
    (by decide) (by decide)).1]
  decide

/-- Counterexample to C2 as stated: the lemma `" "` appears (after
lowercasing and trimming) in the A1 list and again in the A2 list, but the
built index maps it to nothing: `get_word_level` returns `none`, not the
first tier A1, because whitespace-only lemmas are dropped by the
`if lemma_lower` guard. -/
theorem first_tier_wins_counterexample :
    firstTierOf dupSources (normalizeLemma " ") = some "A1" ∧
    firstTierOf (dupSources.drop 1) (normalizeLemma " ") = some "A2" ∧
    get_word_level (load_word_lists dupSources) " " = none ∧
    get_word_level (load_word_lists dupSources) (normalizeLemma " ")
      = none := by
  decide

theorem headWS_dropWhile (l : List Char) :
    headWS (l.dropWhile Char.isWhitespace) = false := by
  induction l with
  | nil => rfl
  | cons c rest ih =>
    cases h : c.isWhitespace with
    | false => simp [List.dropWhile, h, headWS]
    | true => simpa [List.dropWhile, h] using ih

theorem dropWhile_suffix_ex (p : Char → Bool) (l : List Char) :
    ∃ t, t ++ l.dropWhile p = l := by
  induction l with
  | nil => exact ⟨[], rfl⟩
  | cons c rest ih =>
    cases h : p c with
    | false => exact ⟨[], by simp [List.dropWhile, h]⟩
    | true =>
      obtain ⟨t, ht⟩ := ih
      exact ⟨c :: t, by simp [List.dropWhile, h, ht]⟩

theorem edgeWS_stripList (l : List Char) : edgeWS (stripList l) = false := by
  unfold stripList edgeWS
  rw [List.reverse_reverse]
  have h2 : headWS ((l.dropWhile Char.isWhitespace).reverse.dropWhile
      Char.isWhitespace) = false := headWS_dropWhile _
  have h1 : headWS ((l.dropWhile Char.isWhitespace).reverse.dropWhile
      Char.isWhitespace).reverse = false := by
    obtain ⟨t, ht⟩ :=
      dropWhile_suffix_ex Char.isWhitespace (l.dropWhile Char.isWhitespace).reverse
    have hm2 : l.dropWhile Char.isWhitespace =
        ((l.dropWhile Char.isWhitespace).reverse.dropWhile
          Char.isWhitespace).reverse ++ t.reverse := by
      have hc := congrArg List.reverse ht
      simpa [List.reverse_append] using hc.symm
    cases hv : ((l.dropWhile Char.isWhitespace).reverse.dropWhile
        Char.isWhitespace).reverse with
    | nil => simp [headWS]
    | cons c q =>
      have hh : headWS (l.dropWhile Char.isWhitespace) = false :=
        headWS_dropWhile _
      rw [hm2, hv] at hh
      simpa [headWS] using hh
  rw [h1, h2]
  decide

theorem mem_of_lookup {α : Type} {m : List (String × α)} {k : String} {v : α}
    (h : List.lookup k m = some v) : (k, v) ∈ m := by
  induction m with
  | nil => simp [List.lookup] at h
  | cons p rest ih =>
    obtain ⟨a, b⟩ := p
    cases hb : (k == a) with
    | false =>
      have h' : List.lookup k rest = some v := by
        simpa [List.lookup, hb] using h
      exact List.mem_cons_of_mem _ (ih h')
    | true =>
      have hk : k = a := eq_of_beq hb
      have hv : b = v := by simpa [List.lookup, hb] using h
      subst hk
      subst hv
      exact List.mem_cons_self _ _

theorem addLemma_keys {m : List (String × String)} {lvl lem k v : String}
    (hm : ∀ k' v', (k', v') ∈ m → edgeWS k'.toList = false)
    (h : (k, v) ∈ addLemma m lvl lem) : edgeWS k.toList = false := by
  unfold addLemma at h
  split at h
  · rcases List.mem_append.mp h with h' | h'
    · exact hm _ _ h'
    · simp only [List.mem_singleton, Prod.mk.injEq] at h'
      obtain ⟨hk, -⟩ := h'
      rw [hk]
      exact edgeWS_stripList ((pyLower lem).toList)
  · exact hm _ _ h

theorem loadLevel_keys :
    ∀ (ls : List String) (m : List (String × String)) (lvl : String),
    (∀ k v, (k, v) ∈ m → edgeWS k.toList = false) →
    ∀ k v, (k, v) ∈ loadLevel m lvl ls → edgeWS k.toList = false := by
  intro ls
  induction ls with
  | nil => intro m lvl hm k v h; exact hm _ _ h
  | cons x xs ih =>
    intro m lvl hm k v h
    rw [loadLevel_cons] at h
    exact ih _ _ (fun k' v' h' => addLemma_keys hm h') _ _ h

theorem load_fold_keys :
    ∀ (sources : List (String × List String)) (m : List (String × String)),
    (∀ k v, (k, v) ∈ m → edgeWS k.toList = false) →
    ∀ k v, (k, v) ∈ sources.foldl (fun acc p => loadLevel acc p.1 p.2) m →
    edgeWS k.toList = false := by
  intro sources
  induction sources with
  | nil => intro m hm k v h; exact hm _ _ h
  | cons p rest ih =>
    intro m hm k v h
    simp only [List.foldl_cons] at h
    exact ih _ (loadLevel_keys _ _ _ hm) _ _ h

theorem toLower_of_ws {c : Char} (h : c.isWhitespace = true) :
    c.toLower = c := by
  simp only [Char.isWhitespace, Bool.or_eq_true, decide_eq_true_eq] at h
  rcases h with ((rfl | rfl) | rfl) | rfl <;> decide

theorem edgeWS_pyLower (s : String) (h : edgeWS s.toList = true) :
    edgeWS (pyLower s).toList = true := by
  have key : ∀ l : List Char, headWS l = true →
      headWS (l.map Char.toLower) = true := by
    intro l hl
    cases l with
    | nil => simp [headWS] at hl
    | cons c q =>
      have hc : c.isWhitespace = true := hl
      simp [headWS, toLower_of_ws hc, hc]
  have h' : headWS s.toList = true ∨ headWS s.toList.reverse = true := by
    simpa [edgeWS] using h
  show edgeWS (s.toList.map Char.toLower) = true
  unfold edgeWS
  rcases h' with h1 | h2
  · simp only [Bool.or_eq_true]
    exact Or.inl (key _ h1)
  · simp only [Bool.or_eq_true]
    rw [← List.map_reverse]
    exact Or.inr (key _ h2)

theorem lookup_none_of_edge {m : List (String × String)} {probe : String}
    (hp : edgeWS probe.toList = true)
    (hm : ∀ k v, (k, v) ∈ m → edgeWS k.toList = false) :
    List.lookup probe m = none := by
  rcases hl : List.lookup probe m with _ | v
  · rfl
  · have hfalse := hm _ _ (mem_of_lookup hl)
    rw [hfalse] at hp
    cases hp

/-- C10: the index keys are lowercased AND trimmed, but `get_word_level`
only lowercases its argument, so a probe with leading or trailing
whitespace never matches any key: lookup returns `none` for every such
probe, whatever the sources hold. -/
theorem get_word_level_whitespace (sources : List (String × List String))
    (probe : String) (h : edgeWS probe.toList = true) :
    get_word_level (load_word_lists sources) probe = none := by
  unfold get_word_level load_word_lists
  exact lookup_none_of_edge (edgeWS_pyLower probe h)
    (load_fold_keys sources [] (by simp))

/-- Witness for C10: `" haus"` misses even though the trimmed, lowercased
form `"haus"` is present in the index. -/
theorem get_word_level_whitespace_witness :
    get_word_level (load_word_lists [("A1", ["Haus"])]) "haus" = some "A1" ∧
    get_word_level (load_word_lists [("A1", ["Haus"])]) " haus" = none :=
  ⟨by decide, get_word_level_whitespace [("A1", ["Haus"])] " haus" (by decide)⟩

/-- C9: with the analyzer state threaded explicitly (the method reads
`word_levels`, `stopwords`, `core_words` and assigns to no attribute),
`analyze_text` leaves the analyzer unchanged, and running it again on the
post-state with the same token stream and target yields an identical
`AnalysisResult` — classification is a pure function of its inputs. -/
theorem analyze_text_deterministic (a : Analyzer) (tokens : List Token)
    (target : String) :
    (analyze_text_st a tokens target).2 = a ∧
    (analyze_text_st (analyze_text_st a tokens target).2 tokens target).1
      = (analyze_text_st a tokens target).1 :=
  ⟨rfl, rfl⟩

theorem mem_setAdd_self (s : List String) (x : String) : x ∈ setAdd s x := by
  unfold setAdd
  split
  · next h => exact List.mem_of_elem_eq_true h
  · exact List.mem_append.mpr (Or.inr (List.mem_singleton.mpr rfl))

theorem mem_setAdd_of_mem {s : List String} {y : String} (x : String)
    (h : y ∈ s) : y ∈ setAdd s x := by
  unfold setAdd
  split
  · exact h
  · exact List.mem_append.mpr (Or.inl h)

theorem analyzeStep_entities_shape (a : Analyzer) (target : String)
    (acc : AnalysisAcc) (tk : Token) :
    (analyzeStep a target acc tk).skipped_entities = acc.skipped_entities ∨
    (analyzeStep a target acc tk).skipped_entities
      = setAdd acc.skipped_entities tk.text := by
  unfold analyzeStep
  dsimp only
  repeat' split
  all_goals first
    | exact Or.inl rfl
    | exact Or.inr rfl

theorem fold_entities_mono (a : Analyzer) (target : String) :
    ∀ (l : List Token) (acc : AnalysisAcc) {x : String},
    x ∈ acc.skipped_entities →
    x ∈ (l.foldl (analyzeStep a target) acc).skipped_entities := by
  intro l
  induction l with
  | nil => intro acc x h; exact h
  | cons y ys ih =>
    intro acc x h
    rw [List.foldl_cons]
    rcases analyzeStep_entities_shape a target acc y with hs | hs
    · exact ih _ (hs ▸ h)
    · exact ih _ (hs ▸ mem_setAdd_of_mem _ h)

theorem analyzeStep_entity_branch (a : Analyzer) (target : String)
    (acc : AnalysisAcc) {tk : Token} (hp : tk.is_punct = false)
    (hs : tk.is_space = false) (he : tk.ent_type ≠ "") :
    (analyzeStep a target acc tk).skipped_entities
      = setAdd acc.skipped_entities tk.text := by
  simp [analyzeStep, hp, hs, he]

theorem fold_entities_mem (a : Analyzer) (target : String) {tk : Token}
    (hp : tk.is_punct = false) (hs : tk.is_space = false)
    (he : tk.ent_type ≠ "") :
    ∀ (l : List Token) (acc : AnalysisAcc), tk ∈ l →
    tk.text ∈ (l.foldl (analyzeStep a target) acc).skipped_entities := by
  intro l
  induction l with
  | nil => intro acc h; exact absurd h (List.not_mem_nil _)
  | cons y ys ih =>
    intro acc h
    rw [List.foldl_cons]
    rcases List.mem_cons.mp h with rfl | h'
    · refine fold_entities_mono a target ys _ ?_
      rw [analyzeStep_entity_branch a target acc hp hs he]
      exact mem_setAdd_self _ _
    · exact ih _ h'

/-- C3 (amended): a non-punctuation, non-whitespace token with a non-empty
entity tag whose lowercased effective lemma lies in the stopword or
core-word set is recorded only as a skipped entity: its surface form lands
in `skipped_entities`, its skip is logged with reason `(entity)` (never
`(stopword)` or `(core word)`), and its occurrence enters neither the
considered-words list nor any tier bucket; in any token stream containing
it, its surface form is in the skipped-entities set. -/
theorem entity_precedence (a : Analyzer) (target : String) (tk : Token)
    (hp : tk.is_punct = false) (hs : tk.is_space = false)
    (he : tk.ent_type ≠ "")
    (_hsw : pyLower (effLemma tk) ∈ a.stopwords ∨
            pyLower (effLemma tk) ∈ a.core_words) :
    (analyze_text a [tk] target).skipped_entities = [tk.text] ∧
    (analyze_text a [tk] target).debug_skipped_words
      = [tk.text ++ " (entity)"] ∧
    (analyze_text a [tk] target).all_words = [] ∧
    (analyze_text a [tk] target).words_above_level = [] ∧
    ∀ tokens : List Token, tk ∈ tokens →
      tk.text ∈ (analyze_text a tokens target).skipped_entities := by
  refine ⟨?_, ?_, ?_, ?_, ?_⟩
  · simp [analyze_text, analyzeStep, emptyAcc, hp, hs, he, setAdd]
  · simp [analyze_text, analyzeStep, emptyAcc, hp, hs, he]
  · simp [analyze_text, analyzeStep, emptyAcc, hp, hs, he]
  · simp [analyze_text, analyzeStep, emptyAcc, hp, hs, he]
  · intro tokens hmem
    exact fold_entities_mem a target hp hs he tokens emptyAcc hmem

/-- Witness for C3: the entity-tagged stopword token `Bonn` is recorded in
the skipped-entities set alone. -/
theorem entity_precedence_witness :
    (analyze_text stopAnalyzer [entStopToken] "B1").skipped_entities
      = ["Bonn"] :=
  (entity_precedence stopAnalyzer "B1" entStopToken rfl rfl (by decide)
    (Or.inl (by decide))).1

/-- Counterexample to C3 as stated: a punctuation token carrying an entity
tag and a stopword lemma is skipped by the structural filter before the
entity check, so its surface form is recorded nowhere — in particular not
in the skipped-entities set, contrary to the claim's universal reading. -/
theorem entity_precedence_counterexample :
    punctEntToken.ent_type ≠ "" ∧
    pyLower (effLemma punctEntToken) ∈ stopAnalyzer.stopwords ∧
    (analyze_text stopAnalyzer [punctEntToken] "B1").skipped_entities
      = [] := by
  decide

theorem bucketAdd_entry {m : List (String × List WordInfo)} {k : String}
    {w : WordInfo} (P : WordInfo → Prop)
    (hm : ∀ q ∈ m, ∀ x ∈ q.2, P x) (hw : P w) :
    ∀ q ∈ bucketAdd m k w, ∀ x ∈ q.2, P x := by
  induction m with
  | nil =>
    intro q hq x hx
    simp only [bucketAdd, List.mem_singleton] at hq
    rw [hq] at hx
    simp only [List.mem_singleton] at hx
    rw [hx]
    exact hw
  | cons p rest ih =>
    obtain ⟨k', ws⟩ := p
    intro q hq x hx
    unfold bucketAdd at hq
    split at hq
    · rcases List.mem_cons.mp hq with rfl | hq'
      · rcases List.mem_append.mp hx with h' | h'
        · exact hm _ (List.mem_cons_self _ _) _ h'
        · simp only [List.mem_singleton] at h'
          rw [h']
          exact hw
      · exact hm _ (List.mem_cons_of_mem _ hq') _ hx
    · rcases List.mem_cons.mp hq with rfl | hq'
      · exact hm _ (List.mem_cons_self _ _) _ hx
      · exact ih (fun q hq => hm q (List.mem_cons_of_mem _ hq)) _ hq' _ hx

theorem analyzeStep_all_words_shape (a : Analyzer) (target : String)
    (acc : AnalysisAcc) (tk : Token) :
    (analyzeStep a target acc tk).all_words = acc.all_words ∨
    ((analyzeStep a target acc tk).all_words
        = acc.all_words ++ [(tk.text, effLemma tk)] ∧
      ¬ lemmaExcluded a (effLemma tk)) := by
  unfold analyzeStep
  dsimp only
  split
  · exact Or.inl rfl
  split
  · exact Or.inl rfl
  split
  · exact Or.inl rfl
  next h3 =>
  split
  · exact Or.inl rfl
  next h4 =>
  have hok : ¬ lemmaExcluded a (effLemma tk) := by
    intro hcon
    rcases hcon with h | h
    · exact h3 h
    · exact h4 h
  repeat' split
  all_goals exact Or.inr ⟨rfl, hok⟩

theorem analyzeStep_buckets_shape (a : Analyzer) (target : String)
    (acc : AnalysisAcc) (tk : Token) :
    (analyzeStep a target acc tk).buckets = acc.buckets ∨
    ∃ wl, (analyzeStep a target acc tk).buckets
        = bucketAdd acc.buckets wl ⟨tk.text, effLemma tk, tk.pos, tk.i⟩ ∧
      ¬ lemmaExcluded a (effLemma tk) := by
  unfold analyzeStep
  dsimp only
  split
  · exact Or.inl rfl
  split
  · exact Or.inl rfl
  split
  · exact Or.inl rfl
  next h3 =>
  split
  · exact Or.inl rfl
  next h4 =>
  have hok : ¬ lemmaExcluded a (effLemma tk) := by
    intro hcon
    rcases hcon with h | h
    · exact h3 h
    · exact h4 h
  split
  · exact Or.inl rfl
  next wl _ =>
  split
  · split
    · exact Or.inr ⟨wl, rfl, hok⟩
    · exact Or.inr ⟨wl, rfl, hok⟩
  · split
    · exact Or.inl rfl
    · exact Or.inl rfl

theorem analyzeStep_exclInv (a : Analyzer) (target : String)
    (acc : AnalysisAcc) (tk : Token) (hm : exclInv a acc) :
    exclInv a (analyzeStep a target acc tk) := by
  obtain ⟨hw, hb⟩ := hm
  constructor
  · rcases analyzeStep_all_words_shape a target acc tk with hsh | ⟨hsh, hok⟩
    · rw [hsh]; exact hw
    · rw [hsh]
      intro p hp
      rcases List.mem_append.mp hp with h' | h'
      · exact hw _ h'
      · simp only [List.mem_singleton] at h'
        rw [h']
        exact hok
  · rcases analyzeStep_buckets_shape a target acc tk with hsh | ⟨wl, hsh, hok⟩
    · rw [hsh]; exact hb
    · rw [hsh]
      exact bucketAdd_entry (fun x => ¬ lemmaExcluded a x.lem) hb hok

theorem fold_exclInv (a : Analyzer) (target : String) :
    ∀ (l : List Token) (acc : AnalysisAcc), exclInv a acc →
    exclInv a (l.foldl (analyzeStep a target) acc) := by
  intro l
  induction l with
  | nil => intro acc h; exact h
  | cons y ys ih =>
    intro acc h
    rw [List.foldl_cons]
    exact ih _ (analyzeStep_exclInv a target acc y h)

/-- C6 (amended): a token whose lowercased effective lemma lies in the
stopword or core-word set is never classified — no considered-word pair
and no tier-bucket entry ever carries such a lemma, so it reaches no word
list; in the deterministic placeholder rendering its surface form is
emitted verbatim at its position provided its lemma is not mapped by the
vocabulary index to a tier above the target (the renderer recomputes
levels per token and does not consult the exclusion sets, so exclusion
alone does not protect a vocabulary-mapped lemma from replacement). -/
theorem exclusion_sets (a : Analyzer) (tokens : List Token) (target : String) :
    (∀ p ∈ (analyze_text a tokens target).all_words,
        ¬ lemmaExcluded a p.2) ∧
    (∀ q ∈ (analyze_text a tokens target).words_above_level, ∀ w ∈ q.2,
        ¬ lemmaExcluded a w.lem) ∧
    (∀ (j : Nat) (tk : Token), tokens[j]? = some tk →
        replacedByPlaceholder a target tk = false →
        (placeholderTokens a tokens target)[j]? = some tk.text) := by
  have hinv := fold_exclInv a target tokens emptyAcc
    ⟨(by intro p hp; cases hp), (by intro q hq; cases hq)⟩
  refine ⟨hinv.1, hinv.2, ?_⟩
  intro j tk hj hr
  simp [placeholderTokens, List.getElem?_map, hj, hr]

/-- Witness for C6: the excluded token `und` is rendered verbatim. -/
theorem exclusion_sets_witness :
    (placeholderTokens undAnalyzer [undToken] "B1")[0]? = some "und" :=
  (exclusion_sets undAnalyzer [undToken] "B1").2.2 0 undToken rfl (by decide)

/-- Counterexample to C6 as stated: the stopword-lemma token `Doch` is not
emitted verbatim — the renderer never consults the exclusion sets, finds
the lemma `doch` at C1, above target A1, and replaces the token by the
placeholder. -/
theorem exclusion_sets_counterexample :
    pyLower (effLemma dochToken) ∈ dochAnalyzer.stopwords ∧
    placeholder_rendering dochAnalyzer "Doch" [dochToken] "A1" = "[...]" := by
  decide

/-- C1 (amended): with no token above level, the rendering is
`"Hallo, Welt."`; with `außergewöhnliche` above level, the placeholder is
followed directly by the next word with NO separating space — the spacing
loop suppresses the space after a placeholder — so the rendering is
`"Das [...]Wetter."`, not `"Das [...] Wetter."`. -/
theorem rendering_spacing :
    create_leveled_text emptyAnalyzer "Hallo, Welt." helloTokens "B1"
      none none = "Hallo, Welt." ∧
    create_leveled_text wetterAnalyzer "Das außergewöhnliche Wetter."
      wetterTokens "B1" none none = "Das [...]Wetter." := by
  exact ⟨rfl, rfl⟩

/-- Counterexample to C1 as stated: the second scenario does not produce
`"Das [...] Wetter."` — the token after the placeholder gets no leading
space. -/
theorem rendering_spacing_counterexample :
    create_leveled_text wetterAnalyzer "Das außergewöhnliche Wetter."
      wetterTokens "B1" none none ≠ "Das [...] Wetter." := by
  decide

/-- C5 (amended): `create_leveled_text` returns the deterministic
placeholder rendering in every unavailability mode — when the selected
model's client is not configured (whatever the other client's state,
including unrecognized or empty model names), when no AI service or no
model is passed at all, and when there is no above-level word to replace;
but when the selected collaborator (Claude or Gemini) is configured and
its call raises, the function returns the ORIGINAL text unchanged (the
exception is swallowed inside `simplify_text_claude` /
`simplify_text_gemini`), not the placeholder rendering.  In every case a
string is returned — rendering never fails outright. -/
theorem fallback_rendering (a : Analyzer) (text : String)
    (tokens : List Token) (target : String) :
    (∀ (svc : AIService) (m : String),
        ¬ (m = "Claude" ∧ svc.claude_client = true) →
        ¬ (m = "Gemini" ∧ svc.gemini_client = true) →
        create_leveled_text a text tokens target (some svc) (some m)
          = placeholder_rendering a text tokens target) ∧
    (∀ (ai : Option AIService) (ai_model : Option String),
        ai = none ∨ ai_model = none →
        create_leveled_text a text tokens target ai ai_model
          = placeholder_rendering a text tokens target) ∧
    (∀ (svc : AIService) (m : String),
        wordsToReplace (analyze_text a tokens target) = [] →
        create_leveled_text a text tokens target (some svc) (some m)
          = placeholder_rendering a text tokens target) ∧
    (∀ svc : AIService, svc.claude_client = true →
        svc.claude_simplify = none →
        wordsToReplace (analyze_text a tokens target) ≠ [] →
        create_leveled_text a text tokens target (some svc) (some "Claude")
          = text) ∧
    (∀ svc : AIService, svc.gemini_client = true →
        svc.gemini_simplify = none →
        wordsToReplace (analyze_text a tokens target) ≠ [] →
        create_leveled_text a text tokens target (some svc) (some "Gemini")
          = text) := by
  refine ⟨?_, ?_, ?_, ?_, ?_⟩
  · intro svc m h1 h2
    unfold create_leveled_text
    dsimp only
    by_cases hg : m ≠ "" ∧ wordsToReplace (analyze_text a tokens target) ≠ []
    · rw [if_pos hg, if_neg h1, if_neg h2]
      rfl
    · rw [if_neg hg]
      rfl
  · intro ai ai_model h
    rcases h with rfl | rfl
    · rfl
    · cases ai <;> rfl
  · intro svc m h
    unfold create_leveled_text
    dsimp only
    rw [if_neg (fun hc => hc.2 h)]
    rfl
  · intro svc hc hcs hwr
    unfold create_leveled_text
    dsimp only
    rw [if_pos ⟨by decide, hwr⟩, if_pos ⟨rfl, hc⟩]
    simp [simplify_text_claude, hc, hcs]
  · intro svc hg hgs hwr
    unfold create_leveled_text
    dsimp only
    rw [if_pos ⟨by decide, hwr⟩,
      if_neg (fun hc => absurd hc.1 (by decide)), if_pos ⟨rfl, hg⟩]
    simp [simplify_text_gemini, hg, hgs]

/-- Witness for C5: with the selected Claude client not configured, the
deterministic rendering is returned. -/
theorem fallback_rendering_witness :
    create_leveled_text emptyAnalyzer "Hallo" [] "B1" (some offSvc)
      (some "Claude") = placeholder_rendering emptyAnalyzer "Hallo" [] "B1" :=
  (fallback_rendering emptyAnalyzer "Hallo" [] "B1").1 offSvc "Claude"
    (by decide) (by decide)

/-- Counterexample to C5 as stated: the Claude call fails (exception), and
the function returns the original text, which differs from the
deterministic placeholder rendering. -/
theorem fallback_rendering_counterexample :
    create_leveled_text wetterAnalyzer "Das außergewöhnliche Wetter."
      wetterTokens "B1" (some failSvc) (some "Claude")
      = "Das außergewöhnliche Wetter." ∧
    placeholder_rendering wetterAnalyzer "Das außergewöhnliche Wetter."
      wetterTokens "B1" = "Das [...]Wetter." :=
  ⟨rfl, rfl⟩

theorem lookup_dinsert_self {α : Type} (m : List (String × α)) (k : String)
    (v : α) : List.lookup k (dinsert m k v) = some v := by
  induction m with
  | nil => simp [dinsert, List.lookup]
  | cons p rest ih =>
    obtain ⟨k', v'⟩ := p
    unfold dinsert
    split
    · simp [List.lookup]
    · next h =>
      have hb : (k == k') = false :=
        beq_eq_false_iff_ne.mpr (fun he => h he.symm)
      simpa [List.lookup, hb] using ih

theorem lookup_dinsert_isSome {α : Type} {m : List (String × α)}
    {k k' : String} {v : α} (h : (List.lookup k m).isSome = true) :
    (List.lookup k (dinsert m k' v)).isSome = true := by
  induction m with
  | nil => simp [List.lookup] at h
  | cons p rest ih =>
    obtain ⟨a, b⟩ := p
    unfold dinsert
    split
    · next hak =>
      cases hb : (k == a) with
      | true =>
        have hkk : (k == k') = true := by rw [← hak]; exact hb
        simp [List.lookup, hkk]
      | false =>
        have hkk : (k == k') = false := by rw [← hak]; exact hb
        have h' : (List.lookup k rest).isSome = true := by
          simpa [List.lookup, hb] using h
        simpa [List.lookup, hkk] using h'
    · cases hb : (k == a) with
      | true => simp [List.lookup, hb]
      | false =>
        have h' : (List.lookup k rest).isSome = true := by
          simpa [List.lookup, hb] using h
        simpa [List.lookup, hb] using ih h'

theorem translate_word_model (st : TransSvc) (w lang : String) :
    (translate_word st w lang).svc.ai_model = st.ai_model := by
  unfold translate_word
  repeat' split
  all_goals rfl

theorem translate_word_mono {st : TransSvc} {k : String} (w lang : String)
    (h : (List.lookup k st.translation_cache).isSome = true) :
    (List.lookup k (translate_word st w lang).svc.translation_cache).isSome
      = true := by
  unfold translate_word
  repeat' split
  all_goals first
    | exact h
    | exact lookup_dinsert_isSome h

theorem translate_word_hit {st : TransSvc} {w lang v : String}
    (h : List.lookup (tkey w lang st.ai_model) st.translation_cache = some v) :
    translate_word st w lang = ⟨v, st, []⟩ := by
  simp [translate_word, h]

theorem translate_word_calls (st : TransSvc) (w lang : String) :
    (translate_word st w lang).extCalls = [] ∨
    (translate_word st w lang).extCalls = [w] := by
  unfold translate_word
  repeat' split
  all_goals simp

theorem cacheContract_of_untouched {s : TransSvc} {word lang : String}
    (hc : List.lookup (tkey word lang s.ai_model) s.translation_cache = none)
    (h1 : translate_word s word lang
        = ⟨mockTranslation word lang, s, []⟩)
    (hav : s.ai_service = none ∨ s.ai_model = "None") :
    cacheContract s word lang := by
  refine ⟨?_, ?_, ?_, ?_⟩
  · rw [h1, show (TWResult.mk (mockTranslation word lang) s []).svc = s
      from rfl, h1]
    exact Nat.zero_le 1
  · intro v hv
    rw [hc] at hv
    exact Option.noConfusion hv
  · intro _ o ho hne
    rcases hav with ha | ha
    · rw [ha] at ho; exact Option.noConfusion ho
    · exact absurd ha hne
  · intro _ _
    rw [h1]
    exact ⟨rfl, rfl⟩

theorem translate_word_claude {s : TransSvc} {o : AIService}
    {word lang : String}
    (hc : List.lookup (tkey word lang s.ai_model) s.translation_cache = none)
    (hsv : s.ai_service = some o) (hm : ¬ s.ai_model = "None")
    (hcl : s.ai_model = "Claude" ∧ o.claude_client = true) :
    translate_word s word lang = ⟨translate_with_claude o word lang,
      { s with translation_cache := (dinsert s.translation_cache
          (tkey word lang s.ai_model) (translate_with_claude o word lang)) },
      [word]⟩ := by
  unfold translate_word
  simp only [hc, hsv, if_neg hm, if_pos hcl]

theorem translate_word_gemini {s : TransSvc} {o : AIService}
    {word lang : String}
    (hc : List.lookup (tkey word lang s.ai_model) s.translation_cache = none)
    (hsv : s.ai_service = some o) (hm : ¬ s.ai_model = "None")
    (hcl : ¬ (s.ai_model = "Claude" ∧ o.claude_client = true))
    (hge : s.ai_model = "Gemini" ∧ o.gemini_client = true) :
    translate_word s word lang = ⟨translate_with_gemini o word lang,
      { s with translation_cache := (dinsert s.translation_cache
          (tkey word lang s.ai_model) (translate_with_gemini o word lang)) },
      [word]⟩ := by
  unfold translate_word
  simp only [hc, hsv, if_neg hm, if_neg hcl, if_pos hge]

theorem translate_word_mock_stored {s : TransSvc} {o : AIService}
    {word lang : String}
    (hc : List.lookup (tkey word lang s.ai_model) s.translation_cache = none)
    (hsv : s.ai_service = some o) (hm : ¬ s.ai_model = "None")
    (hcl : ¬ (s.ai_model = "Claude" ∧ o.claude_client = true))
    (hge : ¬ (s.ai_model = "Gemini" ∧ o.gemini_client = true)) :
    translate_word s word lang = ⟨mockTranslation word lang,
      { s with translation_cache := (dinsert s.translation_cache
          (tkey word lang s.ai_model) (mockTranslation word lang)) },
      []⟩ := by
  unfold translate_word
  simp only [hc, hsv, if_neg hm, if_neg hcl, if_neg hge]

theorem cacheContract_of_stored {s : TransSvc} {word lang res : String}
    {calls : List String}
    (hc : List.lookup (tkey word lang s.ai_model) s.translation_cache = none)
    (hsv : s.ai_service ≠ none) (hm : s.ai_model ≠ "None")
    (h1 : translate_word s word lang
        = ⟨res, { s with translation_cache := (dinsert s.translation_cache
            (tkey word lang s.ai_model) res) }, calls⟩)
    (hcalls : calls.length ≤ 1) :
    cacheContract s word lang := by
  have hstored : List.lookup (tkey word lang s.ai_model)
      (translate_word s word lang).svc.translation_cache
      = some (translate_word s word lang).result := by
    rw [h1]
    exact lookup_dinsert_self _ _ _
  have hk : List.lookup
      (tkey word lang (translate_word s word lang).svc.ai_model)
      (translate_word s word lang).svc.translation_cache
      = some (translate_word s word lang).result := by
    rw [translate_word_model]
    exact hstored
  have h2 : translate_word (translate_word s word lang).svc word lang
      = ⟨(translate_word s word lang).result,
         (translate_word s word lang).svc, []⟩ :=
    translate_word_hit hk
  refine ⟨?_, ?_, ?_, ?_⟩
  · rw [h2]
    have hz : (TWResult.mk (translate_word s word lang).result
        (translate_word s word lang).svc []).extCalls.length = 0 := rfl
    rw [hz, Nat.add_zero, h1]
    exact hcalls
  · intro v hv
    rw [hc] at hv
    exact Option.noConfusion hv
  · intro _ o _ _
    exact hstored
  · intro _ hd
    rcases hd with hd | hd
    · exact absurd hd hsv
    · exact absurd hd hm

/-- C7 (amended): two successive `translate_word` calls with the same
`(word, language, model)` key issue at most one external translator call
in total; a cache hit returns the stored value with no external call and
no state change; on a miss with an AI service configured and a model
other than `"None"`, the computed result is stored under the key before
being returned (so the second call hits); on a miss with no AI service or
model `"None"`, the mock translation is returned and NOT cached. -/
theorem translation_cache (s : TransSvc) (word lang : String) :
    cacheContract s word lang := by
  rcases hc : List.lookup (tkey word lang s.ai_model) s.translation_cache
    with _ | v
  · rcases hsv : s.ai_service with _ | o
    · exact cacheContract_of_untouched hc
        (by simp [translate_word, hc, hsv]) (Or.inl hsv)
    · have hsv' : s.ai_service ≠ none := by
        intro h; rw [hsv] at h; exact Option.noConfusion h
      by_cases hm : s.ai_model = "None"
      · refine cacheContract_of_untouched hc ?_ (Or.inr hm)
        have hc' : List.lookup (tkey word lang "None") s.translation_cache
            = none := by rw [← hm]; exact hc
        simp [translate_word, hc, hc', hsv, hm]
      · by_cases hcl : s.ai_model = "Claude" ∧ o.claude_client = true
        · exact cacheContract_of_stored hc hsv' hm
            (translate_word_claude hc hsv hm hcl) (Nat.le_refl 1)
        · by_cases hge : s.ai_model = "Gemini" ∧ o.gemini_client = true
          · exact cacheContract_of_stored hc hsv' hm
              (translate_word_gemini hc hsv hm hcl hge) (Nat.le_refl 1)
          · exact cacheContract_of_stored hc hsv' hm
              (translate_word_mock_stored hc hsv hm hcl hge) (Nat.zero_le 1)
  · have h1 : translate_word s word lang = ⟨v, s, []⟩ :=
      translate_word_hit hc
    refine ⟨?_, ?_, ?_, ?_⟩
    · rw [h1, show (TWResult.mk v s []).svc = s from rfl, h1]
      exact Nat.zero_le 1
    · intro v' hv'
      rw [hc] at hv'
      injection hv' with hvv
      subst hvv
      rw [h1]
      exact ⟨rfl, rfl, rfl⟩
    · intro hn; rw [hc] at hn; exact Option.noConfusion hn
    · intro hn; rw [hc] at hn; exact Option.noConfusion hn

/-- Witness for C7: with no AI service the mock translation comes back and
the state is untouched. -/
theorem translation_cache_witness :
    (translate_word ⟨none, "None", []⟩ "Haus" "English").svc.translation_cache
      = [] ∧
    (translate_word ⟨none, "None", []⟩ "Haus" "English").result
      = mockTranslation "Haus" "English" := by
  have h := (translation_cache ⟨none, "None", []⟩ "Haus" "English").2.2.2
    rfl (Or.inl rfl)
  exact ⟨congrArg TransSvc.translation_cache h.1, h.2⟩

/-- Counterexample to C7 as stated: on a cache miss with no translator
configured, the computed mock result `"Haus (EN)"` is returned but NOT
stored — the cache stays empty, contrary to "on a miss the computed
result is stored before being returned". -/
theorem translation_cache_counterexample :
    List.lookup (tkey "Haus" "English" "None")
      (([] : List (String × String))) = none ∧
    (translate_word ⟨none, "None", []⟩ "Haus" "English").result
      = "Haus (EN)" ∧
    (translate_word ⟨none, "None", []⟩ "Haus" "English").svc.translation_cache
      = [] :=
  ⟨rfl, rfl, rfl⟩

theorem batch_calls_eq (s : TransSvc) (words : List String) (lang : String) :
    ∀ ws ∈ (batch_translate_with_ai s words lang).calls, ws = words := by
  unfold batch_translate_with_ai
  repeat' split
  all_goals intro ws hws
  all_goals simp only [List.mem_singleton, List.not_mem_nil] at hws
  all_goals exact hws

theorem batch_model (s : TransSvc) (words : List String) (lang : String) :
    (batch_translate_with_ai s words lang).svc.ai_model = s.ai_model := by
  unfold batch_translate_with_ai
  repeat' split
  all_goals rfl

theorem parseBatch_mono {lang model k : String} :
    ∀ (ws ls : List String) (tr c : List (String × String)),
    (List.lookup k c).isSome = true →
    (List.lookup k (parseBatch lang model ws ls tr c).2).isSome = true := by
  intro ws
  induction ws with
  | nil => intro ls tr c h; exact h
  | cons w ws' ih =>
    intro ls tr c h
    cases ls with
    | nil => exact h
    | cons line ls' =>
      unfold parseBatch
      split
      · exact ih _ _ _ (lookup_dinsert_isSome h)
      · exact ih _ _ _ h

theorem batch_mono {s : TransSvc} {k : String} (words : List String)
    (lang : String) (h : (List.lookup k s.translation_cache).isSome = true) :
    (List.lookup k
      (batch_translate_with_ai s words lang).svc.translation_cache).isSome
      = true := by
  unfold batch_translate_with_ai
  repeat' split
  all_goals first
    | exact h
    | exact parseBatch_mono _ _ _ _ h

theorem batchPhase_calls (s : TransSvc) (words : List String) (lang : String) :
    ∀ ws ∈ (batchPhase s words lang).2.2, ws = uncachedOf s words lang := by
  unfold batchPhase
  split
  · split
    · exact batch_calls_eq s (uncachedOf s words lang) lang
    · intro ws hws; cases hws
  · intro ws hws; cases hws

theorem batchPhase_calls_ne (s : TransSvc) (words : List String)
    (lang : String) (h : (batchPhase s words lang).2.2 ≠ []) :
    words.length > 5 ∧ uncachedOf s words lang ≠ [] := by
  unfold batchPhase at h
  split at h
  · next hcond =>
    split at h
    · next hunc => exact ⟨hcond.2.2, hunc⟩
    · exact absurd rfl h
  · exact absurd rfl h

theorem batchPhase_model (s : TransSvc) (words : List String) (lang : String) :
    (batchPhase s words lang).2.1.ai_model = s.ai_model := by
  unfold batchPhase
  split
  · split
    · exact batch_model s (uncachedOf s words lang) lang
    · rfl
  · rfl

theorem batchPhase_mono {s : TransSvc} {k : String} (words : List String)
    (lang : String) (h : (List.lookup k s.translation_cache).isSome = true) :
    (List.lookup k (batchPhase s words lang).2.1.translation_cache).isSome
      = true := by
  unfold batchPhase
  split
  · split
    · exact batch_mono (uncachedOf s words lang) lang h
    · exact h
  · exact h

theorem tb_fold_inv (lang model0 w : String) :
    ∀ (l : List String) (tr : List (String × String)) (st : TransSvc)
      (sc : List String),
    st.ai_model = model0 →
    (List.lookup (tkey w lang model0) st.translation_cache).isSome = true →
    w ∉ sc →
    (l.foldl (tbStep lang) (tr, st, sc)).2.1.ai_model = model0 ∧
    (List.lookup (tkey w lang model0)
      (l.foldl (tbStep lang) (tr, st, sc)).2.1.translation_cache).isSome
      = true ∧
    w ∉ (l.foldl (tbStep lang) (tr, st, sc)).2.2 := by
  intro l
  induction l with
  | nil => intro tr st sc h1 h2 h3; exact ⟨h1, h2, h3⟩
  | cons x xs ih =>
    intro tr st sc h1 h2 h3
    rw [List.foldl_cons]
    by_cases hx : (List.lookup x tr).isSome = true
    · rw [show tbStep lang (tr, st, sc) x = (tr, st, sc) from by
        simp [tbStep, hx]]
      exact ih tr st sc h1 h2 h3
    · rw [show tbStep lang (tr, st, sc) x
          = (dinsert tr x (translate_word st x lang).result,
             (translate_word st x lang).svc,
             sc ++ (translate_word st x lang).extCalls) from by
        simp [tbStep, hx]]
      refine ih _ _ _ ?_ ?_ ?_
      · rw [translate_word_model]; exact h1
      · exact translate_word_mono x lang h2
      · intro hmem
        rcases List.mem_append.mp hmem with h' | h'
        · exact h3 h'
        · rcases translate_word_calls st x lang with he | he
          · rw [he] at h'; cases h'
          · rw [he] at h'
            simp only [List.mem_singleton] at h'
            subst h'
            have h2' : (List.lookup (tkey w lang st.ai_model)
                st.translation_cache).isSome = true := by
              rw [h1]; exact h2
            obtain ⟨v, hv⟩ := Option.isSome_iff_exists.mp h2'
            have hcontr := translate_word_hit hv
            rw [hcontr] at he
            cases he

/-- C8 (amended): every batched external call of `translate_batch` is
issued for exactly the uncached subset of the input, and such a call
happens only when the FULL input list has more than 5 words and the
uncached subset is nonempty (the threshold is tested against `len(words)`,
not against the uncached subset); no external call, batched or single,
is ever issued for a word whose cache key is already present. -/
theorem batch_translation (s : TransSvc) (words : List String)
    (lang : String) :
    (∀ ws ∈ (translate_batch s words lang).batchCalls,
        ws = uncachedOf s words lang) ∧
    ((translate_batch s words lang).batchCalls ≠ [] →
        words.length > 5 ∧ uncachedOf s words lang ≠ []) ∧
    (∀ w, (List.lookup (tkey w lang s.ai_model) s.translation_cache).isSome
          = true →
        (∀ ws ∈ (translate_batch s words lang).batchCalls, w ∉ ws) ∧
        w ∉ (translate_batch s words lang).singleCalls) := by
  refine ⟨batchPhase_calls s words lang, batchPhase_calls_ne s words lang, ?_⟩
  intro w hw
  constructor
  · intro ws hws
    rw [batchPhase_calls s words lang ws hws]
    intro hmem
    have := (List.mem_filter.mp hmem).2
    rw [Option.isNone_iff_eq_none] at this
    rw [this] at hw
    cases hw
  · have hinv := tb_fold_inv lang s.ai_model w words
      (batchPhase s words lang).1 (batchPhase s words lang).2.1 []
      (batchPhase_model s words lang) (batchPhase_mono words lang hw)
      (List.not_mem_nil w)
    exact hinv.2.2

/-- Witness for C8: a word whose key is cached triggers no external call. -/
theorem batch_translation_witness :
    "w1" ∉ (translate_batch cachedSvc ["w1"] "L").singleCalls :=
  ((batch_translation cachedSvc ["w1"] "L").2.2 "w1" (by decide)).2

/-- Counterexample to C8 as stated: with six input words of which five are
cached, the uncached subset `["w6"]` has size 1 ≤ 5, yet the batched
external call IS issued for it — the size test `len(words) > 5` looks at
the full input list, not the uncached subset. -/
theorem batch_translation_counterexample :
    (translate_batch batchCexSvc ["w1", "w2", "w3", "w4", "w5", "w6"]
      "L").batchCalls = [["w6"]] ∧
    (uncachedOf batchCexSvc ["w1", "w2", "w3", "w4", "w5", "w6"] "L").length
      ≤ 5 := by
  constructor
  · rfl
  · decide

end GermanTextLevel
